import Mathlib

/-!
Verification of the concurrent batch image downloader implemented twice in
this repository, as create_pdf.py and create-pdf.py.  The two scripts share
the same control flow; they differ only in

* the worker-pool size K: create_pdf.py computes
  n_cores = min(32, os.cpu_count() or 4 + 4), create-pdf.py fixes 8;
* the per-request timeout: create_pdf.py calls
  requests.get(url, timeout=2, stream=True), create-pdf.py calls
  requests.get(url, stream = True) with no timeout;
* the value download_chapter returns when its loop falls through:
  False in create_pdf.py, None (implicit) in create-pdf.py.

The embedding below keeps one parametric definition for each function and
exposes the per-file differences as parameters or separate instantiations.
Page-fetch outcomes are abstracted by a boolean oracle (one deterministic
outcome per page of a chapter run), and the outcome of one download_image
call by an explicit environment recording the HTTP response, whether the
body decodes as an image, and whether the filesystem operations succeed.
-/

/-- Python range(start, stop, step) for a positive step:
start, start+step, ..., the largest value below stop. -/
def rangeUp (start stop step : Nat) : List Nat :=
  (List.range ((stop - start + step - 1) / step)).map (fun m => start + m * step)

/-- Python range(start, stop, -1) (step -1), over the integers:
start, start-1, ..., stop+1. -/
def rangeDown (start stop : Int) : List Int :=
  (List.range (start - stop).toNat).map (fun t : Nat => start - (t : Int))

/-- create_pdf.py line 34: n_cores = min(32, os.cpu_count() or 4 + 4).
Python + binds tighter than or, and x or y yields y when x is None or 0;
os.cpu_count() is modelled as an Option Nat. -/
def n_cores (cpuCount : Option Nat) : Nat :=
  min 32 (match cpuCount with
    | some n => if n = 0 then 4 + 4 else n
    | none => 4 + 4)

/-- The page numbers put into params for the batch whose outer index is i:
for j in range(i, i-K, -1): if j > 0, in source order (descending j). -/
def batchPages (K i : Nat) : List Nat :=
  ((rangeDown i ((i : Int) - (K : Int))).filter (fun j => 0 < j)).map Int.toNat

/-- All batches the loop for i in range(1, 1000, K) builds, in order. -/
def batches (K : Nat) : List (List Nat) :=
  (rangeUp 1 1000 K).map (batchPages K)

/-- The test False in results for one batch, where ok p is the boolean the
page-p fetch returned. -/
def batchFails (ok : Nat → Bool) (b : List Nat) : Bool :=
  (b.map ok).contains false

/-- The batch loop of download_chapter: dispatch batches in order, stop
right after the first batch whose result vector contains False.  Returns
the batches actually dispatched and the early-return flag (the source
returns True exactly when the flag is set). -/
def runBatches (ok : Nat → Bool) : List (List Nat) → List (List Nat) × Bool
  | [] => ([], false)
  | b :: bs =>
    if batchFails ok b then ([b], true)
    else
      let r := runBatches ok bs
      (b :: r.1, r.2)

/-- download_chapter of create_pdf.py (lines 32-47): True when a batch
contained a failure, False when the loop over range(1, 1000, K) finished. -/
def download_chapter (K : Nat) (ok : Nat → Bool) : Bool :=
  (runBatches ok (batches K)).2

/-- download_chapter of create-pdf.py (lines 28-39): True when a batch
contained a failure, and None (the implicit return) when the loop over
range(1, 1000, 8) finished. -/
def download_chapterD (ok : Nat → Bool) : Option Bool :=
  if (runBatches ok (batches 8)).2 then some true else none

/-- The batches actually dispatched for one chapter run. -/
def issuedBatches (K : Nat) (ok : Nat → Bool) : List (List Nat) :=
  (runBatches ok (batches K)).1

/-- The log lines download_chapters prints per chapter. -/
inductive LogEv where
  | start (ch : String)
  | finished (ch : String)
deriving DecidableEq

/-- The chapter identifiers chapter_prefix + str(i) for i in range(1, 20). -/
def chapterIds (pfx : String) : List String :=
  (rangeUp 1 20 1).map (fun i => pfx ++ toString i)

/-- The body of download_chapters, one chapter after the other: print the
start line, run the chapter, and print the finished line exactly when the
comparison of the result with True succeeds. -/
def chapterEvents (run : String → Bool) (chs : List String) : List LogEv :=
  chs.flatMap (fun ch => LogEv.start ch :: (if run ch then [LogEv.finished ch] else []))

/-- download_chapters of create_pdf.py (lines 23-30): result == True. -/
def download_chapters (K : Nat) (pfx : String) (ok : String → Nat → Bool) : List LogEv :=
  chapterEvents (fun ch => download_chapter K (ok ch)) (chapterIds pfx)

/-- Python x is True, for the optional boolean create-pdf.py returns. -/
def pyIsTrue : Option Bool → Bool
  | some true => true
  | _ => false

/-- download_chapters of create-pdf.py (lines 20-26): result is True. -/
def download_chaptersD (pfx : String) (ok : String → Nat → Bool) : List LogEv :=
  chapterEvents (fun ch => pyIsTrue (download_chapterD (ok ch))) (chapterIds pfx)

/-- The chapters whose start line was printed, in print order. -/
def started (evs : List LogEv) : List String :=
  evs.filterMap (fun e => match e with | LogEv.start ch => some ch | _ => none)

/-- An HTTP response as download_image inspects it. -/
structure HttpResponse where
  status : Nat
  reason : String
deriving DecidableEq

/-- The outcome environment of one download_image call: the response of
requests.get (or .error for an exception raised during the request),
whether Image.open decodes resp.raw, and whether the filesystem operations
(makedirs, img.save, manifest open/write) all succeed. -/
structure FetchEnv where
  response : Except Unit HttpResponse
  decodeOk : Bool
  fsOk : Bool

/-- One HTTP request as issued by requests.get. -/
structure RequestSpec where
  httpMethod : String
  url : String
  timeout : Option Nat
  stream : Bool
deriving DecidableEq

/-- The filesystem state download_image and generate_pdf touch: the image
files written, the content of subject-pages.txt, and the content of
subject-sorted-pages.txt. -/
structure FState where
  images : List (List Char)
  manifest : List Char
  sortedManifest : List Char
deriving DecidableEq

/-- Result of one download_image call: the returned boolean, the updated
filesystem, and the HTTP requests issued during the call. -/
structure FetchResult where
  result : Bool
  fs : FState
  requests : List RequestSpec

/-- os.path.join(os.path.join(subject, chapter), image) on POSIX paths. -/
def pathOf (subject chapter image : String) : List Char :=
  (subject ++ "/" ++ chapter ++ "/" ++ image).data

/-- download_image (create_pdf.py lines 54-75, create-pdf.py lines 45-65):
one GET (timeout=2 in create_pdf.py, no timeout in create-pdf.py,
stream=True in both); on status 200, decode the body, create the
subject/chapter directory, save the image at subject/chapter/image, and
append the path plus a newline to subject-pages.txt, returning True;
on any other status, or any exception raised along the way, return False.
The try/except swallowing every exception makes the embedding total. -/
def download_image (tmo : Option Nat) (env : FetchEnv) (fs : FState)
    (url image subject chapter : String) : FetchResult :=
  let req : RequestSpec := ⟨"GET", url, tmo, true⟩
  match env.response with
  | Except.error _ => ⟨false, fs, [req]⟩
  | Except.ok resp =>
    if resp.status = 200 then
      if env.decodeOk then
        if env.fsOk then
          let path := pathOf subject chapter image
          ⟨true,
            { fs with images := fs.images ++ [path],
                      manifest := fs.manifest ++ path ++ ['\n'] },
            [req]⟩
        else ⟨false, fs, [req]⟩
      else ⟨false, fs, [req]⟩
    else ⟨false, fs, [req]⟩

/-- download_image of create_pdf.py: requests.get(url, timeout=2, stream=True). -/
def download_imageU (env : FetchEnv) (fs : FState)
    (url image subject chapter : String) : FetchResult :=
  download_image (some 2) env fs url image subject chapter

/-- download_image of create-pdf.py: requests.get(url, stream = True),
no timeout argument, so the requests library applies none. -/
def download_imageD (env : FetchEnv) (fs : FState)
    (url image subject chapter : String) : FetchResult :=
  download_image none env fs url image subject chapter

/-- One download_image invocation: its outcome environment and arguments. -/
structure Call where
  env : FetchEnv
  url : String
  image : String
  subject : String
  chapter : String

/-- Whether a call ends in the success branch of download_image. -/
def callOk (c : Call) : Bool :=
  match c.env.response with
  | Except.error _ => false
  | Except.ok resp => resp.status == 200 && c.env.decodeOk && c.env.fsOk

/-- The output path of a call. -/
def callPath (c : Call) : List Char :=
  pathOf c.subject c.chapter c.image

/-- Execute one call against a filesystem state. -/
def doCall (tmo : Option Nat) (fs : FState) (c : Call) : FetchResult :=
  download_image tmo c.env fs c.url c.image c.subject c.chapter

/-- A serialization of the download_image calls of the downloading phase:
concurrent workers interleave, but each manifest append is a discrete
line write, so any run is one such sequence. -/
def runDownloads (tmo : Option Nat) : List Call → FState → FState
  | [], fs => fs
  | c :: cs, fs => runDownloads tmo cs (doCall tmo fs c).fs

/-- The output paths of the successful calls, in order. -/
def successPaths (calls : List Call) : List (List Char) :=
  (calls.filter callOk).map callPath

/-- The name of the manifest file the downloader appends to. -/
def manifestFile (subject : String) : String :=
  subject ++ "-pages.txt"

/-- The name of the file the sorter writes. -/
def sortedManifestFile (subject : String) : String :=
  subject ++ "-sorted-pages.txt"

/-- The line-break characters Python str.splitlines splits on. -/
def isLineBreak (c : Char) : Bool :=
  c = '\n' || c = '\r' || c = '\x0b' || c = '\x0c' ||
  c = '\x1c' || c = '\x1d' || c = '\x1e' || c = '\x85' ||
  c = ' ' || c = ' '

/-- Python str.splitlines: split at every line break, treat \r\n as one
break, keep no break characters, and drop a trailing empty line. -/
def pySplitlines : List Char → List (List Char)
  | [] => []
  | [c] => if isLineBreak c then [[]] else [[c]]
  | c :: c2 :: rest =>
    if c = '\r' && c2 = '\n' then
      [] :: pySplitlines rest
    else if isLineBreak c then
      [] :: pySplitlines (c2 :: rest)
    else
      match pySplitlines (c2 :: rest) with
      | [] => [[c]]
      | l :: ls => (c :: l) :: ls

/-- Python sep.join for sep = the one-character string containing a
newline. -/
def pyJoin : List (List Char) → List Char
  | [] => []
  | [l] => l
  | l :: ls => l ++ '\n' :: pyJoin ls

/-- Python sorted on strings: the unique ascending reordering under the
code-point lexicographic total order (the List Char order is exactly that
lexicographic order, and for a total order every correct sort, Python's
stable mergesort included, yields the same list). -/
def pySorted (ls : List (List Char)) : List (List Char) :=
  List.insertionSort (· ≤ ·) ls

/-- The manifest sorting step of generate_pdf (create_pdf.py lines 79-81,
create-pdf.py lines 68-70):
out_file.write(newline.join(sorted(in_file.read().splitlines()))). -/
def sortContent (s : List Char) : List Char :=
  pyJoin (pySorted (pySplitlines s))

/-- The first with-block of generate_pdf: read subject-pages.txt, write its
sorted content to subject-sorted-pages.txt, touching nothing else. -/
def generate_pdf_sort (fs : FState) : FState :=
  { fs with sortedManifest := sortContent fs.manifest }

/-- Every character of the list fails isLineBreak. -/
def lineBreakFree (l : List Char) : Bool :=
  l.all (fun c => !isLineBreak c)

/-- The content is empty or ends with a newline, as any manifest written
only by download_image appends does. -/
def nlTerminated (m : List Char) : Bool :=
  match m.getLast? with
  | none => true
  | some c => c = '\n'

theorem batchFails_iff (ok : Nat → Bool) (b : List Nat) :
    batchFails ok b = true ↔ ∃ p ∈ b, ok p = false := by
  simp [batchFails, List.contains_iff_exists_mem_beq]

theorem runBatches_of_no_fail (ok : Nat → Bool) (bs : List (List Nat))
    (h : ∀ b ∈ bs, batchFails ok b = false) :
    runBatches ok bs = (bs, false) := by
  induction bs with
  | nil => rfl
  | cons b bs ih =>
    have hb := h b (by simp)
    simp [runBatches, hb, ih (fun b' hb' => h b' (by simp [hb']))]

theorem runBatches_fail_split (ok : Nat → Bool) (bs : List (List Nat))
    (h : (runBatches ok bs).2 = true) :
    ∃ bs1 b bs2, bs = bs1 ++ b :: bs2 ∧
      (runBatches ok bs).1 = bs1 ++ [b] ∧
      (∀ b' ∈ bs1, batchFails ok b' = false) ∧
      batchFails ok b = true := by
  induction bs with
  | nil => simp [runBatches] at h
  | cons b bs ih =>
    by_cases hb : batchFails ok b = true
    · exact ⟨[], b, bs, by simp, by simp [runBatches, hb], by simp, hb⟩
    · have hb' : batchFails ok b = false := by simpa using hb
      have h2 : (runBatches ok bs).2 = true := by
        simpa [runBatches, hb'] using h
      obtain ⟨bs1, b1, bs2, he, hi, hn, hf⟩ := ih h2
      refine ⟨b :: bs1, b1, bs2, by simp [he], by simp [runBatches, hb', hi], ?_, hf⟩
      intro b' hb''
      rcases List.mem_cons.mp hb'' with rfl | hmem
      · exact hb'
      · exact hn _ hmem

theorem runBatches_flag_false (ok : Nat → Bool) (bs : List (List Nat))
    (h : (runBatches ok bs).2 = false) :
    (runBatches ok bs).1 = bs ∧ ∀ b ∈ bs, batchFails ok b = false := by
  induction bs with
  | nil => simp [runBatches]
  | cons b bs ih =>
    by_cases hb : batchFails ok b = true
    · simp [runBatches, hb] at h
    · have hb' : batchFails ok b = false := by simpa using hb
      have h2 : (runBatches ok bs).2 = false := by simpa [runBatches, hb'] using h
      obtain ⟨h1, h3⟩ := ih h2
      refine ⟨by simp [runBatches, hb', h1], ?_⟩
      intro b' hmem
      rcases List.mem_cons.mp hmem with rfl | hm
      · exact hb'
      · exact h3 _ hm

theorem batches_length (K : Nat) : (batches K).length = (999 + K - 1) / K := by
  simp only [batches, rangeUp, List.length_map, List.length_range]

/-- Claim C3: for every chapter the scheduler issues exactly
ceil(999/K) = (999 + K - 1) / K batches when no task fails, and when some
task fails it issues exactly the batches up to and including the first
batch containing a failure, so a single failure anywhere in a batch stops
all further batches for that chapter. -/
theorem c3_scheduler_batch_count (K : Nat) (ok : Nat → Bool) :
    ((runBatches ok (batches K)).2 = false →
      (issuedBatches K ok).length = (999 + K - 1) / K)
    ∧ ((runBatches ok (batches K)).2 = true →
      ∃ bs1 b bs2, batches K = bs1 ++ b :: bs2 ∧
        issuedBatches K ok = bs1 ++ [b] ∧
        (∀ b' ∈ bs1, batchFails ok b' = false) ∧
        batchFails ok b = true) := by
  constructor
  · intro h
    rw [issuedBatches, (runBatches_flag_false ok (batches K) h).1, batches_length]
  · intro h
    exact runBatches_fail_split ok (batches K) h

theorem batchPages_length_le (K i : Nat) : (batchPages K i).length ≤ K := by
  have h1 := List.length_filter_le (fun j => decide (0 < j))
      (rangeDown i ((i : Int) - (K : Int)))
  have h2 : (rangeDown i ((i : Int) - (K : Int))).length ≤ K := by
    simp only [rangeDown, List.length_map, List.length_range]
    omega
  simp only [batchPages, List.length_map]
  exact le_trans h1 h2

theorem batchPages_sorted (K i : Nat) :
    List.Sorted (· > ·) (batchPages K i) := by
  have h0 : List.Pairwise (fun a b : Int => a > b)
      (rangeDown i ((i : Int) - (K : Int))) := by
    rw [rangeDown, List.pairwise_map]
    refine (List.pairwise_lt_range _).imp ?_
    intro a b hab
    dsimp only
    omega
  have h1 := h0.filter (fun j => decide (0 < j))
  have h2 : List.Pairwise (fun a b : Int => a.toNat > b.toNat)
      ((rangeDown i ((i : Int) - (K : Int))).filter (fun j => decide (0 < j))) := by
    refine h1.imp_of_mem ?_
    intro a b ha hb hab
    have ha' : 0 < a := by simpa using (List.mem_filter.mp ha).2
    have hb' : 0 < b := by simpa using (List.mem_filter.mp hb).2
    omega
  rw [batchPages, List.Sorted, List.pairwise_map]
  exact h2

theorem batchPages_one (K : Nat) (hK : 0 < K) : batchPages K 1 = [1] := by
  obtain ⟨K', rfl⟩ := Nat.exists_eq_succ_of_ne_zero hK.ne'
  have hcount : ((↑(1:Nat) : Int) - (↑(1:Nat) - ↑(K'.succ : Nat))).toNat = K' + 1 := by
    push_cast
    omega
  simp only [batchPages, rangeDown, hcount, List.range_succ_eq_map,
    List.map_cons, List.map_map]
  have hone : ((↑(1:Nat) : Int) - ↑(0:Nat)) = 1 := by norm_num
  rw [hone]
  rw [List.filter_cons]
  have htail : (((List.range K').map ((fun t : Nat => (↑(1:Nat) : Int) - ↑t) ∘ Nat.succ))).filter
      (fun j => decide (0 < j)) = [] := by
    rw [List.filter_eq_nil_iff]
    intro a ha
    simp only [List.mem_map, List.mem_range, Function.comp] at ha
    obtain ⟨t, _, rfl⟩ := ha
    simp only [decide_eq_true_eq, not_lt]
    push_cast
    omega
  simp only [decide_eq_true_eq] at htail ⊢
  simp [htail]

theorem batches_head (K : Nat) (hK : 0 < K) :
    (batches K).head? = some [1] := by
  have hn : (1000 - 1 + K - 1) / K ≠ 0 := by
    have h1 : 1 ≤ (1000 - 1 + K - 1) / K := (Nat.one_le_div_iff hK).mpr (by omega)
    omega
  obtain ⟨m, hm⟩ := Nat.exists_eq_succ_of_ne_zero hn
  rw [batches, rangeUp, hm, List.range_succ_eq_map]
  simp [batchPages_one K hK]

/-- Claim C10: for every chapter the first dispatched batch is exactly
[page 1], every batch contains at most K pages, and within each batch the
page numbers are in strictly descending order. -/
theorem c10_batch_shape (K : Nat) (hK : 0 < K) :
    (batches K).head? = some [1]
    ∧ ∀ b ∈ batches K, b.length ≤ K ∧ List.Sorted (· > ·) b := by
  refine ⟨batches_head K hK, ?_⟩
  intro b hb
  rw [batches, List.mem_map] at hb
  obtain ⟨i, _, rfl⟩ := hb
  exact ⟨batchPages_length_le K i, batchPages_sorted K i⟩

/-- Claim C10, witness at the fixed pool size K = 8 of create-pdf.py. -/
theorem c10_batch_shape_witness :
    0 < 8 ∧
    ((batches 8).head? = some [1]
      ∧ ∀ b ∈ batches 8, b.length ≤ 8 ∧ List.Sorted (· > ·) b) :=
  ⟨by decide, c10_batch_shape 8 (by decide)⟩

set_option maxRecDepth 8000 in
/-- Claim C2 fails on the code: with pool size K = 8 (the fixed size of
create-pdf.py) and no fetch ever failing, page 999 is never attempted (the
attempted pages are 1..993, because range(1, 1000, 8) ends at 993 and each
batch counts downward from its start), and the first batch holds a single
page rather than K, even though the docstring promises pages 1 to 999. -/
theorem c2_pages_not_covered :
    999 ∉ (issuedBatches 8 (fun _ => true)).flatten
    ∧ (batches 8).flatten.length = 993
    ∧ 999 ∉ (batches 8).flatten
    ∧ (batches 8).head? = some [1] := by decide

/-- Claim C9: the chapter-download result is True exactly when some issued
batch contained a failed page fetch; with zero failures create_pdf.py
returns False and create-pdf.py returns None. -/
theorem c9_chapter_result (K : Nat) (ok : Nat → Bool) :
    (download_chapter K ok = true ↔
      ∃ b ∈ issuedBatches K ok, ∃ p ∈ b, ok p = false)
    ∧ (download_chapterD ok = some true ↔
      ∃ b ∈ issuedBatches 8 ok, ∃ p ∈ b, ok p = false)
    ∧ ((∀ b ∈ issuedBatches K ok, batchFails ok b = false) →
      download_chapter K ok = false)
    ∧ ((∀ b ∈ issuedBatches 8 ok, batchFails ok b = false) →
      download_chapterD ok = none) := by
  have main : ∀ K', (runBatches ok (batches K')).2 = true ↔
      ∃ b ∈ issuedBatches K' ok, ∃ p ∈ b, ok p = false := by
    intro K'
    constructor
    · intro h
      obtain ⟨bs1, b, bs2, _, hi, _, hf⟩ := runBatches_fail_split ok (batches K') h
      exact ⟨b, by rw [issuedBatches, hi]; simp, (batchFails_iff ok b).mp hf⟩
    · rintro ⟨b, hb, hp⟩
      by_contra hne
      have hflag : (runBatches ok (batches K')).2 = false := by
        cases hv : (runBatches ok (batches K')).2
        · rfl
        · exact absurd hv hne
      obtain ⟨h1, h2⟩ := runBatches_flag_false ok (batches K') hflag
      have : batchFails ok b = false := h2 b (by rwa [issuedBatches, h1] at hb)
      exact absurd ((batchFails_iff ok b).mpr hp) (by simp [this])
  have noFail : ∀ K', (∀ b ∈ issuedBatches K' ok, batchFails ok b = false) →
      (runBatches ok (batches K')).2 = false := by
    intro K' h
    cases hv : (runBatches ok (batches K')).2
    · rfl
    · obtain ⟨bs1, b, bs2, _, hi, _, hf⟩ := runBatches_fail_split ok (batches K') hv
      have : batchFails ok b = false := h b (by rw [issuedBatches, hi]; simp)
      rw [this] at hf
      exact absurd hf (by simp)
  refine ⟨main K, ?_, fun h => noFail K h, fun h => ?_⟩
  · rw [download_chapterD]
    constructor
    · intro h
      rw [← main 8]
      by_contra hne
      have : (runBatches ok (batches 8)).2 = false := by
        cases hv : (runBatches ok (batches 8)).2
        · rfl
        · exact absurd hv hne
      simp [this] at h
    · intro h
      rw [← main 8] at h
      simp [h]
  · rw [download_chapterD, noFail 8 h]
    rfl

theorem started_chapterEvents (run : String → Bool) (chs : List String) :
    started (chapterEvents run chs) = chs := by
  induction chs with
  | nil => rfl
  | cons ch chs ih =>
    simp only [chapterEvents, List.flatMap_cons, started, List.filterMap_append,
      List.filterMap_cons] at ih ⊢
    cases run ch <;> simp_all [started]

theorem finished_mem_chapterEvents (run : String → Bool) (chs : List String)
    (ch : String) :
    LogEv.finished ch ∈ chapterEvents run chs ↔ ch ∈ chs ∧ run ch = true := by
  rw [chapterEvents, List.mem_flatMap]
  constructor
  · rintro ⟨c, hc, hmem⟩
    rcases List.mem_cons.mp hmem with h | h
    · exact (LogEv.noConfusion h)
    · by_cases hr : run c = true
      · rw [hr] at h
        simp only [if_true, List.mem_singleton] at h
        obtain rfl : ch = c := by cases h; rfl
        exact ⟨hc, hr⟩
      · rw [Bool.not_eq_true] at hr
        rw [hr] at h
        simp at h
  · rintro ⟨hc, hr⟩
    exact ⟨ch, hc, by simp [hr]⟩

/-- Claim C6: every run attempts exactly 19 chapters, with the identifiers
chapter_prefix + "1" through chapter_prefix + "19" in increasing index
order, and it proceeds through the whole list whatever each chapter run
returned (the started-chapter list does not depend on the oracle). -/
theorem c6_nineteen_chapters (cpuCount : Option Nat) (pfx : String)
    (okU okD : String → Nat → Bool) :
    started (download_chapters (n_cores cpuCount) pfx okU) = chapterIds pfx
    ∧ started (download_chaptersD pfx okD) = chapterIds pfx
    ∧ chapterIds pfx = (List.range' 1 19).map (fun i => pfx ++ toString i)
    ∧ (chapterIds pfx).length = 19 := by
  have h : rangeUp 1 20 1 = List.range' 1 19 := by decide
  refine ⟨started_chapterEvents _ _, started_chapterEvents _ _, ?_, ?_⟩
  · rw [chapterIds, h]
  · rw [chapterIds, h]
    simp

/-- Claim C1 fails on the code: with the all-success oracle the chapter
range is exhausted with zero failures (download_chapter returns False),
yet no completion line is printed for any chapter; the source prints
the completion line only when download_chapter returned True. -/
theorem c1_completion_log_cex :
    download_chapter 8 (fun _ => true) = false
    ∧ LogEv.finished "A1" ∉ download_chapters 8 "A" (fun _ _ => true) := by
  have hall : ∀ b ∈ batches 8, batchFails (fun _ => true) b = false := by
    intro b _
    cases hv : batchFails (fun _ => true) b
    · rfl
    · obtain ⟨p, _, hp⟩ := (batchFails_iff _ b).mp hv
      exact absurd hp (by simp)
  have hrun := runBatches_of_no_fail (fun _ => true) (batches 8) hall
  refine ⟨by rw [download_chapter, hrun], ?_⟩
  rw [download_chapters, finished_mem_chapterEvents]
  rintro ⟨-, hr⟩
  simp only [download_chapter, hrun] at hr
  exact Bool.false_ne_true hr

theorem pyIsTrue_eq (x : Option Bool) : pyIsTrue x = true ↔ x = some true := by
  cases x with
  | none => simp [pyIsTrue]
  | some b => cases b <;> simp [pyIsTrue]

/-- Claim C1 amended: the completion line for a chapter is printed exactly
when download_chapter signalled a page failure (returned True, resp.
some True for create-pdf.py); a chapter whose full candidate range is
exhausted with zero failures gets no completion line. -/
theorem c1_completion_log_amended (K : Nat) (pfx ch : String)
    (ok : String → Nat → Bool) :
    (LogEv.finished ch ∈ download_chapters K pfx ok ↔
      ch ∈ chapterIds pfx ∧ download_chapter K (ok ch) = true)
    ∧ (LogEv.finished ch ∈ download_chaptersD pfx ok ↔
      ch ∈ chapterIds pfx ∧ download_chapterD (ok ch) = some true) := by
  constructor
  · exact finished_mem_chapterEvents _ _ _
  · rw [download_chaptersD, finished_mem_chapterEvents, pyIsTrue_eq]

/-- Claim C5 fails on the code: the single GET issued by create-pdf.py's
download_image carries no timeout at all (requests.get(url, stream = True)
at line 47), so not every page fetch has a bounded per-request timeout. -/
theorem c5_timeout_cex :
    (download_imageD ⟨Except.error (), true, true⟩ ⟨[], [], []⟩
        "u" "001.jpg" "SUB" "A1").requests = [⟨"GET", "u", none, true⟩]
    ∧ (RequestSpec.timeout ⟨"GET", "u", none, true⟩) = none := by
  constructor
  · rfl
  · rfl

/-- Claim C5 amended: every page fetch performs exactly one HTTP GET; in
create_pdf.py that GET carries the bounded timeout of 2 seconds, the only
timeout anywhere in the script, while in create-pdf.py it carries no
timeout. -/
theorem c5_single_get (env : FetchEnv) (fs : FState)
    (url image subject chapter : String) :
    (download_imageU env fs url image subject chapter).requests
      = [⟨"GET", url, some 2, true⟩]
    ∧ (download_imageD env fs url image subject chapter).requests
      = [⟨"GET", url, none, true⟩]
    ∧ ∀ tmo, (download_image tmo env fs url image subject chapter).requests
      = [⟨"GET", url, tmo, true⟩] := by
  have h : ∀ tmo, (download_image tmo env fs url image subject chapter).requests
      = [⟨"GET", url, tmo, true⟩] := by
    intro tmo
    rw [download_image]
    rcases env with ⟨resp, d, f⟩
    cases resp with
    | error e => rfl
    | ok r =>
      dsimp only
      split
      · cases d <;> cases f <;> rfl
      · rfl
  exact ⟨h (some 2), h none, h⟩

/-- Claim C4: a page fetch whose GET raises, or whose response status is
not 200, or whose decode or filesystem step raises, returns False (and,
the embedding being a total function, raises nothing); one with status
200, a decodable body, and clean filesystem writes returns True, writes
the image file at subject/chapter/image, and appends exactly that path
plus a newline to the manifest (one new line, nothing else touched). -/
theorem c4_fetch_result (tmo : Option Nat) (env : FetchEnv) (fs : FState)
    (url image subject chapter : String) (r : FetchResult)
    (hr : r = download_image tmo env fs url image subject chapter) :
    (env.response = Except.error () → r.result = false ∧ r.fs = fs)
    ∧ (∀ resp, env.response = Except.ok resp → resp.status ≠ 200 →
        r.result = false ∧ r.fs = fs)
    ∧ (env.decodeOk = false → r.result = false ∧ r.fs = fs)
    ∧ (env.fsOk = false → r.result = false)
    ∧ (∀ resp, env.response = Except.ok resp → resp.status = 200 →
        env.decodeOk = true → env.fsOk = true →
        r.result = true
        ∧ r.fs.images = fs.images ++ [pathOf subject chapter image]
        ∧ r.fs.manifest = fs.manifest ++ pathOf subject chapter image ++ ['\n']
        ∧ r.fs.sortedManifest = fs.sortedManifest) := by
  rcases env with ⟨resp, d, f⟩
  subst hr
  cases resp with
  | error e => simp [download_image]
  | ok resp =>
    by_cases hs : resp.status = 200 <;> cases d <;> cases f <;>
      simp [download_image, hs]

set_option maxRecDepth 8000 in
/-- Claim C3, witness: at K = 8 with every fetch succeeding the flag stays
False and exactly (999 + 8 - 1) / 8 = 125 batches are issued, while with
pages above 100 failing the issue stops at the first failing batch. -/
theorem c3_scheduler_batch_count_witness :
    (issuedBatches 8 (fun _ => true)).length = (999 + 8 - 1) / 8
    ∧ ∃ bs1 b bs2, batches 8 = bs1 ++ b :: bs2 ∧
        issuedBatches 8 (fun p => decide (p ≤ 100)) = bs1 ++ [b] ∧
        (∀ b' ∈ bs1, batchFails (fun p => decide (p ≤ 100)) b' = false) ∧
        batchFails (fun p => decide (p ≤ 100)) b = true :=
  ⟨(c3_scheduler_batch_count 8 (fun _ => true)).1 (by decide),
   (c3_scheduler_batch_count 8 (fun p => decide (p ≤ 100))).2 (by decide)⟩

set_option maxRecDepth 8000 in
/-- Claim C9, witness: with every fetch succeeding, create_pdf.py's
download_chapter returns False and create-pdf.py's returns None. -/
theorem c9_chapter_result_witness :
    download_chapter 8 (fun _ => true) = false
    ∧ download_chapterD (fun _ => true) = none :=
  ⟨(c9_chapter_result 8 (fun _ => true)).2.2.1 (by decide),
   (c9_chapter_result 8 (fun _ => true)).2.2.2 (by decide)⟩

/-- Claim C4, witness: a 200 response with decodable body and clean writes
returns True, stores the image, and appends exactly one manifest line; a
raised request, a 404 response, a decode error, and a write error each
return False. -/
theorem c4_fetch_result_witness :
    (download_image (some 2) ⟨Except.ok ⟨200, "OK"⟩, true, true⟩ ⟨[], [], []⟩
        "u" "001.jpg" "SUB" "A1").result = true
    ∧ (download_image (some 2) ⟨Except.ok ⟨200, "OK"⟩, true, true⟩ ⟨[], [], []⟩
        "u" "001.jpg" "SUB" "A1").fs.manifest
      = [] ++ pathOf "SUB" "A1" "001.jpg" ++ ['\n']
    ∧ (download_image (some 2) ⟨Except.error (), true, true⟩ ⟨[], [], []⟩
        "u" "001.jpg" "SUB" "A1").result = false
    ∧ (download_image (some 2) ⟨Except.ok ⟨404, "Not Found"⟩, true, true⟩
        ⟨[], [], []⟩ "u" "001.jpg" "SUB" "A1").result = false
    ∧ (download_image (some 2) ⟨Except.ok ⟨200, "OK"⟩, false, true⟩ ⟨[], [], []⟩
        "u" "001.jpg" "SUB" "A1").result = false
    ∧ (download_image (some 2) ⟨Except.ok ⟨200, "OK"⟩, true, false⟩ ⟨[], [], []⟩
        "u" "001.jpg" "SUB" "A1").result = false := by
  have h := (c4_fetch_result (some 2) ⟨Except.ok ⟨200, "OK"⟩, true, true⟩
      ⟨[], [], []⟩ "u" "001.jpg" "SUB" "A1" _ rfl).2.2.2.2 ⟨200, "OK"⟩ rfl rfl rfl rfl
  refine ⟨h.1, h.2.2.1, ?_, ?_, ?_, ?_⟩
  · exact ((c4_fetch_result (some 2) ⟨Except.error (), true, true⟩ ⟨[], [], []⟩
      "u" "001.jpg" "SUB" "A1" _ rfl).1 rfl).1
  · exact ((c4_fetch_result (some 2) ⟨Except.ok ⟨404, "Not Found"⟩, true, true⟩
      ⟨[], [], []⟩ "u" "001.jpg" "SUB" "A1" _ rfl).2.1 ⟨404, "Not Found"⟩ rfl
      (by decide)).1
  · exact ((c4_fetch_result (some 2) ⟨Except.ok ⟨200, "OK"⟩, false, true⟩
      ⟨[], [], []⟩ "u" "001.jpg" "SUB" "A1" _ rfl).2.2.1 rfl).1
  · exact (c4_fetch_result (some 2) ⟨Except.ok ⟨200, "OK"⟩, true, false⟩
      ⟨[], [], []⟩ "u" "001.jpg" "SUB" "A1" _ rfl).2.2.2.1 rfl

theorem pySplitlines_eq_crlf (c c2 : Char) (rest : List Char)
    (h : (decide (c = '\r') && decide (c2 = '\n')) = true) :
    pySplitlines (c :: c2 :: rest) = [] :: pySplitlines rest := by
  simp only [pySplitlines]
  rw [if_pos h]

theorem pySplitlines_eq_break (c c2 : Char) (rest : List Char)
    (h : ¬(decide (c = '\r') && decide (c2 = '\n')) = true)
    (hb : isLineBreak c = true) :
    pySplitlines (c :: c2 :: rest) = [] :: pySplitlines (c2 :: rest) := by
  simp only [pySplitlines]
  rw [if_neg h, if_pos hb]

theorem pySplitlines_eq_other (c c2 : Char) (rest : List Char)
    (h : ¬(decide (c = '\r') && decide (c2 = '\n')) = true)
    (hb : ¬isLineBreak c = true) :
    pySplitlines (c :: c2 :: rest) =
      match pySplitlines (c2 :: rest) with
      | [] => [[c]]
      | l :: ls => (c :: l) :: ls := by
  simp only [pySplitlines]
  rw [if_neg h, if_neg hb]

theorem pySplitlines_ne_nil (m : List Char) (h : m ≠ []) : pySplitlines m ≠ [] := by
  cases m with
  | nil => exact absurd rfl h
  | cons c m' =>
    cases m' with
    | nil => by_cases hb : isLineBreak c = true <;> simp [pySplitlines, hb]
    | cons c2 rest =>
      by_cases h1 : (decide (c = '\r') && decide (c2 = '\n')) = true
      · rw [pySplitlines_eq_crlf c c2 rest h1]
        simp
      · by_cases h2 : isLineBreak c = true
        · rw [pySplitlines_eq_break c c2 rest h1 h2]
          simp
        · rw [pySplitlines_eq_other c c2 rest h1 h2]
          rcases hm : pySplitlines (c2 :: rest) with _ | ⟨l, ls⟩ <;> simp

theorem pySplitlines_clean (m : List Char) :
    ∀ l ∈ pySplitlines m, lineBreakFree l = true := by
  induction m using pySplitlines.induct with
  | case1 => simp [pySplitlines]
  | case2 c hb => simp [pySplitlines, hb, lineBreakFree]
  | case3 c hb =>
    simp only [Bool.not_eq_true] at hb
    simp [pySplitlines, hb, lineBreakFree]
  | case4 c c2 rest hcond ih =>
    rw [pySplitlines_eq_crlf c c2 rest hcond]
    intro l hl
    rcases List.mem_cons.mp hl with rfl | hmem
    · simp [lineBreakFree]
    · exact ih l hmem
  | case5 c c2 rest hcond hb ih =>
    rw [pySplitlines_eq_break c c2 rest hcond hb]
    intro l hl
    rcases List.mem_cons.mp hl with rfl | hmem
    · simp [lineBreakFree]
    · exact ih l hmem
  | case6 c c2 rest hcond hb hnil ih =>
    rw [pySplitlines_eq_other c c2 rest hcond hb, hnil]
    simp only [Bool.not_eq_true] at hb
    simp [lineBreakFree, hb]
  | case7 c c2 rest hcond hb l1 ls1 hcons ih =>
    rw [pySplitlines_eq_other c c2 rest hcond hb, hcons]
    simp only [Bool.not_eq_true] at hb
    intro l hl
    rcases List.mem_cons.mp hl with rfl | hmem
    · have h1 : lineBreakFree l1 = true := ih l1 (by rw [hcons]; simp)
      simp only [lineBreakFree, List.all_cons, hb]
      simpa [lineBreakFree] using h1
    · exact ih l (by rw [hcons]; simp [hmem])

theorem lineBreakFree_cons (c : Char) (p : List Char)
    (h : lineBreakFree (c :: p) = true) :
    isLineBreak c = false ∧ lineBreakFree p = true := by
  simp only [lineBreakFree, List.all_cons, Bool.and_eq_true, Bool.not_eq_true'] at h
  exact ⟨h.1, by simp [lineBreakFree, h.2]⟩

theorem not_cr_of_clean (c : Char) (h : isLineBreak c = false) :
    ∀ c2 : Char, ¬(decide (c = '\r') && decide (c2 = '\n')) = true := by
  intro c2 hc
  rw [Bool.and_eq_true] at hc
  have : c = '\r' := of_decide_eq_true hc.1
  rw [this] at h
  simp [isLineBreak] at h

theorem pySplitlines_line (p r : List Char) (hp : lineBreakFree p = true) :
    pySplitlines (p ++ '\n' :: r) = p :: pySplitlines r := by
  induction p with
  | nil =>
    cases r with
    | nil => simp [pySplitlines, isLineBreak]
    | cons c2 r' =>
      rw [List.nil_append]
      rw [pySplitlines_eq_break '\n' c2 r' (by simp [isLineBreak]) (by simp [isLineBreak])]
  | cons c p' ih =>
    obtain ⟨hc, hp'⟩ := lineBreakFree_cons c p' hp
    have ihe := ih hp'
    obtain ⟨c2, r2, he⟩ : ∃ c2 r2, p' ++ '\n' :: r = c2 :: r2 := by
      cases p' with
      | nil => exact ⟨'\n', r, rfl⟩
      | cons a q => exact ⟨a, q ++ '\n' :: r, rfl⟩
    rw [List.cons_append, he,
      pySplitlines_eq_other c c2 r2 (not_cr_of_clean c hc c2) (by simp [hc]),
      ← he, ihe]

theorem pySplitlines_single (p : List Char) (hp : lineBreakFree p = true)
    (hne : p ≠ []) : pySplitlines p = [p] := by
  induction p with
  | nil => exact absurd rfl hne
  | cons c p' ih =>
    obtain ⟨hc, hp'⟩ := lineBreakFree_cons c p' hp
    cases p' with
    | nil => simp [pySplitlines, hc]
    | cons c2 r2 =>
      rw [pySplitlines_eq_other c c2 r2 (not_cr_of_clean c hc c2) (by simp [hc]),
        ih hp' (by simp)]

theorem pySplitlines_append (m r : List Char) (hm : m.getLast? = some '\n') :
    pySplitlines (m ++ r) = pySplitlines m ++ pySplitlines r := by
  induction m using pySplitlines.induct with
  | case1 => simp at hm
  | case2 c hb =>
    have hc : c = '\n' := by simpa using hm
    subst hc
    cases r with
    | nil => simp [pySplitlines, isLineBreak]
    | cons c2 r' =>
      rw [List.singleton_append,
        pySplitlines_eq_break '\n' c2 r' (by simp [isLineBreak]) (by simp [isLineBreak])]
      simp [pySplitlines, isLineBreak]
  | case3 c hb =>
    have hc : c = '\n' := by simpa using hm
    subst hc
    simp [isLineBreak] at hb
  | case4 c c2 rest hcond ih =>
    rw [List.cons_append, List.cons_append,
      pySplitlines_eq_crlf c c2 (rest ++ r) hcond,
      pySplitlines_eq_crlf c c2 rest hcond]
    cases rest with
    | nil => simp [pySplitlines]
    | cons a q =>
      have hlast : (a :: q).getLast? = some '\n' := by
        rw [← hm]
        simp [List.getLast?_cons_cons]
      rw [ih hlast]
      simp
  | case5 c c2 rest hcond hb ih =>
    have hlast : (c2 :: rest).getLast? = some '\n' := by
      rw [← hm]
      simp [List.getLast?_cons_cons]
    rw [List.cons_append, List.cons_append,
      pySplitlines_eq_break c c2 (rest ++ r) hcond hb,
      pySplitlines_eq_break c c2 rest hcond hb,
      ← List.cons_append, ih hlast]
    simp
  | case6 c c2 rest hcond hb hnil ih =>
    exact absurd hnil (pySplitlines_ne_nil _ (by simp))
  | case7 c c2 rest hcond hb l1 ls1 hcons ih =>
    have hlast : (c2 :: rest).getLast? = some '\n' := by
      rw [← hm]
      simp [List.getLast?_cons_cons]
    rw [List.cons_append, List.cons_append,
      pySplitlines_eq_other c c2 (rest ++ r) hcond hb,
      pySplitlines_eq_other c c2 rest hcond hb,
      ← List.cons_append, ih hlast, hcons]
    simp

theorem nlTerminated_cases (m : List Char) (hm : nlTerminated m = true) :
    m = [] ∨ m.getLast? = some '\n' := by
  rcases hl : m.getLast? with _ | c
  · left
    simpa using hl
  · right
    rw [nlTerminated, hl] at hm
    simp only [decide_eq_true_eq] at hm
    exact congrArg some hm

theorem pySplitlines_append_line (m p : List Char) (hm : nlTerminated m = true)
    (hp : lineBreakFree p = true) :
    pySplitlines (m ++ (p ++ ['\n'])) = pySplitlines m ++ [p] := by
  have hline : pySplitlines (p ++ ['\n']) = [p] := by
    have := pySplitlines_line p [] hp
    simpa using this
  rcases nlTerminated_cases m hm with rfl | hlast
  · simpa using hline
  · rw [pySplitlines_append m (p ++ ['\n']) hlast, hline]

theorem pySplitlines_flat (ps : List (List Char))
    (h : ∀ p ∈ ps, lineBreakFree p = true) :
    pySplitlines (ps.flatMap (fun p => p ++ ['\n'])) = ps := by
  induction ps with
  | nil => rfl
  | cons p ps ih =>
    rw [List.flatMap_cons]
    have he : (p ++ ['\n']) ++ ps.flatMap (fun p => p ++ ['\n'])
        = p ++ '\n' :: ps.flatMap (fun p => p ++ ['\n']) := by
      simp
    rw [he, pySplitlines_line p _ (h p (by simp)), ih (fun q hq => h q (by simp [hq]))]

theorem pyJoin_cons (l : List Char) (ls : List (List Char)) (h : ls ≠ []) :
    pyJoin (l :: ls) = l ++ '\n' :: pyJoin ls := by
  cases ls with
  | nil => exact absurd rfl h
  | cons z zs => rfl

theorem pySplitlines_pyJoin (ys : List (List Char))
    (hclean : ∀ l ∈ ys, lineBreakFree l = true)
    (hlast : ys.getLast? ≠ some []) :
    pySplitlines (pyJoin ys) = ys := by
  induction ys with
  | nil => rfl
  | cons y ys ih =>
    cases ys with
    | nil =>
      have hy : y ≠ [] := by
        intro hcon
        rw [hcon] at hlast
        simp at hlast
      rw [pyJoin]
      exact pySplitlines_single y (hclean y (by simp)) hy
    | cons z zs =>
      rw [pyJoin_cons y (z :: zs) (by simp),
        pySplitlines_line y _ (hclean y (by simp)),
        ih (fun q hq => hclean q (by simp [hq]))
          (by simpa [List.getLast?_cons_cons] using hlast)]

theorem sorted_le_getLast (l : List (List Char))
    (hs : List.Sorted (· ≤ ·) l) (b : List Char) (hb : l.getLast? = some b) :
    ∀ a ∈ l, a ≤ b := by
  induction l with
  | nil => simp
  | cons x xs ih =>
    intro a ha
    cases xs with
    | nil =>
      simp only [List.getLast?_singleton, Option.some_inj] at hb
      simp only [List.mem_singleton] at ha
      rw [ha, hb]
    | cons z zs =>
      have hb' : (z :: zs).getLast? = some b := by
        simpa [List.getLast?_cons_cons] using hb
      have hbmem : b ∈ z :: zs := List.mem_of_mem_getLast? hb' 
      rcases List.mem_cons.mp ha with rfl | hmem
      · exact (List.sorted_cons.mp hs).1 b hbmem
      · exact ih (List.sorted_cons.mp hs).2 hb' a hmem

theorem pySorted_getLast_ne_nil (xs : List (List Char))
    (hne : ∃ l ∈ xs, l ≠ []) :
    (pySorted xs).getLast? ≠ some [] := by
  obtain ⟨l, hl, hlne⟩ := hne
  intro hcon
  have hmem : l ∈ pySorted xs := by
    rw [pySorted]
    exact (List.perm_insertionSort (· ≤ ·) xs).mem_iff.mpr hl
  have hsorted : List.Sorted (· ≤ ·) (pySorted xs) :=
    List.sorted_insertionSort (· ≤ ·) xs
  have hle : l ≤ [] := sorted_le_getLast _ hsorted [] hcon l hmem
  exact hlne (le_antisymm hle List.nil_le)

/-- Claim C8 amended: the read-sort-write step is idempotent on every
manifest that is empty or has at least one nonempty line, in particular on
every manifest the downloader itself produces, whose lines are nonempty
paths; on a file consisting solely of newline characters it is not
idempotent, each application dropping one line. -/
theorem c8_sort_idempotent_amended (s : List Char)
    (h : pySplitlines s = [] ∨ ∃ l ∈ pySplitlines s, l ≠ []) :
    sortContent (sortContent s) = sortContent s := by
  rcases h with h | hne
  · have hs0 : sortContent s = [] := by
      rw [sortContent, h]
      rfl
    rw [hs0]
    rfl
  · have hclean : ∀ t ∈ pySorted (pySplitlines s), lineBreakFree t = true := by
      intro t ht
      exact pySplitlines_clean s t
        ((List.perm_insertionSort (· ≤ ·) (pySplitlines s)).mem_iff.mp ht)
    have hlast := pySorted_getLast_ne_nil (pySplitlines s) hne
    have hsorted : List.Sorted (· ≤ ·) (pySorted (pySplitlines s)) :=
      List.sorted_insertionSort (· ≤ ·) (pySplitlines s)
    show pyJoin (pySorted (pySplitlines (sortContent s))) = sortContent s
    rw [sortContent, pySplitlines_pyJoin _ hclean hlast]
    rw [show pySorted (pySorted (pySplitlines s)) = pySorted (pySplitlines s) from
      List.Sorted.insertionSort_eq hsorted]


/-- Claim C8 amended, witness at the two-line manifest b, a. -/
theorem c8_sort_idempotent_witness :
    sortContent (sortContent ('b' :: '\n' :: 'a' :: '\n' :: []))
      = sortContent ('b' :: '\n' :: 'a' :: '\n' :: []) :=
  c8_sort_idempotent_amended ('b' :: '\n' :: 'a' :: '\n' :: []) (by decide)

/-- Claim C8 fails as stated: the transformation is not idempotent on the
two-newline file; its sorted output is the one-newline file, which sorts
to the empty file. -/
theorem c8_sort_idempotent_cex :
    sortContent (sortContent ('\n' :: '\n' :: [])) ≠ sortContent ('\n' :: '\n' :: []) := by
  decide

theorem doCall_fs (tmo : Option Nat) (fs : FState) (c : Call) :
    (doCall tmo fs c).fs =
      if callOk c then
        { fs with images := fs.images ++ [callPath c],
                  manifest := fs.manifest ++ callPath c ++ ['\n'] }
      else fs := by
  rcases c with ⟨⟨resp, d, f⟩, url, image, subject, chapter⟩
  cases resp with
  | error e => simp [doCall, download_image, callOk]
  | ok r =>
    by_cases hs : r.status = 200 <;> cases d <;> cases f <;>
      simp [doCall, download_image, callOk, callPath, hs]

theorem successPaths_cons (c : Call) (cs : List Call) :
    successPaths (c :: cs) =
      if callOk c then callPath c :: successPaths cs else successPaths cs := by
  rw [successPaths, List.filter_cons]
  split
  · rw [List.map_cons]
    rfl
  · rfl

theorem runDownloads_state (tmo : Option Nat) (calls : List Call) (fs : FState) :
    (runDownloads tmo calls fs).manifest
      = fs.manifest ++ (successPaths calls).flatMap (fun p => p ++ ['\n'])
    ∧ (runDownloads tmo calls fs).images = fs.images ++ successPaths calls
    ∧ (runDownloads tmo calls fs).sortedManifest = fs.sortedManifest := by
  induction calls generalizing fs with
  | nil => simp [runDownloads, successPaths]
  | cons c cs ih =>
    rw [runDownloads, doCall_fs, successPaths_cons]
    by_cases hc : callOk c = true
    · rw [if_pos hc, if_pos hc]
      obtain ⟨h1, h2, h3⟩ :=
        ih ⟨fs.images ++ [callPath c], fs.manifest ++ callPath c ++ ['\n'],
          fs.sortedManifest⟩
      refine ⟨?_, ?_, ?_⟩
      · rw [h1, List.flatMap_cons]
        simp
      · rw [h2]
        simp
      · rw [h3]
    · rw [if_neg hc, if_neg hc]
      exact ih fs

/-- Claim C7: during the downloading phase the manifest file grows only by
appends, each successful download appending exactly one line (the output
path); the sorter then reads the manifest unchanged and writes the sorted
content into the distinct file subject-sorted-pages.txt. -/
theorem c7_manifest_append_only (tmo : Option Nat) (calls : List Call)
    (fs : FState) :
    (runDownloads tmo calls fs).manifest
      = fs.manifest ++ (successPaths calls).flatMap (fun p => p ++ ['\n'])
    ∧ (runDownloads tmo calls fs).images = fs.images ++ successPaths calls
    ∧ (nlTerminated fs.manifest = true →
        (∀ c ∈ calls, lineBreakFree (callPath c) = true) →
        pySplitlines ((runDownloads tmo calls fs).manifest)
          = pySplitlines fs.manifest ++ successPaths calls)
    ∧ (∀ fs' : FState, (generate_pdf_sort fs').manifest = fs'.manifest
        ∧ (generate_pdf_sort fs').images = fs'.images
        ∧ (generate_pdf_sort fs').sortedManifest = sortContent fs'.manifest)
    ∧ (∀ subject : String, manifestFile subject ≠ sortedManifestFile subject) := by
  obtain ⟨h1, h2, h3⟩ := runDownloads_state tmo calls fs
  refine ⟨h1, h2, ?_, ?_, ?_⟩
  · intro hnl hclean
    have hcleanPaths : ∀ p ∈ successPaths calls, lineBreakFree p = true := by
      intro p hp
      rw [successPaths, List.mem_map] at hp
      obtain ⟨c, hcmem, rfl⟩ := hp
      exact hclean c (List.mem_of_mem_filter hcmem)
    have hflat := pySplitlines_flat (successPaths calls) hcleanPaths
    rw [h1]
    rcases nlTerminated_cases fs.manifest hnl with he | hlast
    · rw [he, List.nil_append, hflat]
      rfl
    · rw [pySplitlines_append _ _ hlast, hflat]
  · intro fs'
    exact ⟨rfl, rfl, rfl⟩
  · intro subject h
    have hlen := congrArg String.length h
    rw [manifestFile, sortedManifestFile, String.length_append,
      String.length_append, show ("-pages.txt".length = 10) from rfl,
      show ("-sorted-pages.txt".length = 17) from rfl] at hlen
    omega

/-- Claim C7, witness: one successful call appends exactly the line
SUB/A1/001.jpg to the empty manifest. -/
theorem c7_manifest_append_only_witness :
    pySplitlines ((runDownloads (some 2)
        [⟨⟨Except.ok ⟨200, "OK"⟩, true, true⟩, "u", "001.jpg", "SUB", "A1"⟩]
        ⟨[], [], []⟩).manifest)
      = pySplitlines ([] : List Char)
        ++ successPaths
          [⟨⟨Except.ok ⟨200, "OK"⟩, true, true⟩, "u", "001.jpg", "SUB", "A1"⟩] :=
  (c7_manifest_append_only (some 2)
      [⟨⟨Except.ok ⟨200, "OK"⟩, true, true⟩, "u", "001.jpg", "SUB", "A1"⟩]
      ⟨[], [], []⟩).2.2.1 (by decide) (by decide)
